import Mathlib

/-!
Verification of `copyFilePaths.py` (bmscriptsbox/copy_files_path).

The program is a single linear pipeline: read a text file (UTF-8, falling
back to GBK), normalize the lines (strip, drop blanks, deduplicate keeping
first occurrences, sort case-insensitively and stably), and copy the
newline-joined result to the clipboard (Windows) or print it to the console
(other platforms).

Strings are modelled as `List Char` (Python strings are sequences of code
points; comparison is lexicographic by code point, which matches the
`Char` order here).  File-system and platform facts that the script reads
from its environment (existence of the input path, decode outcomes,
`sys.platform`, whether the `clip` subprocess call raises) are modelled as
explicit inputs; console output and clipboard payloads are returned as
explicit traces.
-/

set_option maxHeartbeats 1000000

namespace CopyFilePaths

/-- The ASCII whitespace characters removed by Python `str.strip()` with no
argument (the model restricts to ASCII; the claims only involve ASCII data). -/
def isPySpace (c : Char) : Bool :=
  c = ' ' || c = '\t' || c = '\n' || c = '\r' || c = '\x0b' || c = '\x0c'

/-- Model of Python `line.strip()` (line 93): remove leading and trailing
whitespace. -/
def pyStrip (s : List Char) : List Char :=
  ((s.dropWhile isPySpace).reverse.dropWhile isPySpace).reverse

/-- Model of Python `x.lower()` (ASCII case folding), the sort key
`lambda x: x.lower()` of line 102. -/
def lowerKey (s : List Char) : List Char := s.map Char.toLower

/-- Strict lexicographic comparison of two character lists by code point:
the ordering Python uses to compare `str` values (and hence sort keys). -/
def lexLt : List Char → List Char → Bool
  | [], [] => false
  | [], _ :: _ => true
  | _ :: _, [] => false
  | a :: as, b :: bs =>
    if a < b then true
    else if b < a then false
    else lexLt as bs

/-- Strict comparison of two entries under the case-insensitive key. -/
def ltKey (a b : List Char) : Bool := lexLt (lowerKey a) (lowerKey b)

/-- Non-strict comparison of two entries under the case-insensitive key:
`a` is at most `b` when the key of `b` is not strictly below the key of `a`. -/
def leKey (a b : List Char) : Prop := ltKey b a = false

/-- Line 93, `[line.strip() for line in content if line.strip()]`: strip every
line and keep the non-empty results (a stripped line is truthy iff non-empty). -/
def stripFilter (content : List (List Char)) : List (List Char) :=
  (content.map pyStrip).filter (fun s => !s.isEmpty)

/-- Lines 96-99: the loop building `unique_paths`, appending each path that is
not already present.  `seen` is the part of `unique_paths` built so far; the
function returns the entries appended after `seen`. -/
def dedupAux (seen : List (List Char)) : List (List Char) → List (List Char)
  | [] => []
  | p :: ps => if p ∈ seen then dedupAux seen ps else p :: dedupAux (seen ++ [p]) ps

/-- Lines 95-99: deduplication by exact string equality keeping the first
occurrence of each entry. -/
def dedupFirst (l : List (List Char)) : List (List Char) := dedupAux [] l

/-- Insert `x` into `l` before the first element whose key is not strictly
below the key of `x` (so `x` lands after smaller keys and before equal keys). -/
def insortK (x : List Char) : List (List Char) → List (List Char)
  | [] => [x]
  | y :: ys => if ltKey y x then y :: insortK x ys else x :: y :: ys

/-- Model of line 102, `sorted(unique_paths, key=lambda x: x.lower())`:
Python's sort is stable and ascending under the key; the stable ascending
sort under a total preorder is a unique function of its input, and this
insertion sort (which inserts every element before later elements with an
equal key) computes it. -/
def sortByLower : List (List Char) → List (List Char)
  | [] => []
  | x :: xs => insortK x (sortByLower xs)

/-- Lines 78-107, `FilePathExtractor.extract_file_paths` (the Normalizer):
an empty `content` returns `[]` at once (line 88); otherwise the lines are
stripped and filtered, deduplicated, and sorted case-insensitively.  The
`try` body consists of a list comprehension over strings, `in`-checks,
`append`, and `sorted` with a `str.lower` key, none of which can raise on a
list of strings, so the `except` branch (lines 105-107) is dead code and the
model has no exceptional path. -/
def extract_file_paths (content : List (List Char)) : List (List Char) :=
  if content.isEmpty then []
  else sortByLower (dedupFirst (stripFilter content))

/-- Environment facts the script consults: `sys.platform.startswith('win')`,
the `sys.platform` string (used in the warning message), and whether the
Windows `clip` subprocess interaction (Popen, encode, communicate) raises
(if it does, the raised exception's text). -/
structure SysEnv where
  isWin : Bool
  platformName : List Char
  clipOk : Bool
  clipErrText : List Char
deriving DecidableEq

/-- Outcome of `copy_file_paths`: console lines printed, payload texts written
to the clipboard, and the returned Boolean. -/
structure CopyOutcome where
  printed : List (List Char)
  clipped : List (List Char)
  ok : Bool
deriving DecidableEq

/-- Line 120, the message printed for an empty path list. -/
def msgNothing : List Char := "提示: 没有文件路径可复制".data

/-- Line 141 and 143, the separator printed around the console fallback. -/
def sepLine : List Char := List.replicate 50 '-'

/-- Line 124, `'\n'.join(file_paths)`. -/
def joinLines (paths : List (List Char)) : List Char :=
  List.intercalate ['\n'] paths

/-- Lines 109-148, `FilePathExtractor.copy_file_paths`: an empty list prints a
notice and returns `False` without touching the clipboard; on Windows the
joined text is piped to `clip` (returning `True`, or printing an error and
returning `False` if the subprocess interaction raises); on any other
platform the joined text is printed between separator lines and the function
returns `False`. -/
def copy_file_paths (env : SysEnv) (file_paths : List (List Char)) : CopyOutcome :=
  if file_paths.isEmpty then
    { printed := [msgNothing], clipped := [], ok := false }
  else
    let result := joinLines file_paths
    if env.isWin then
      if env.clipOk then
        { printed := ["✅ 已复制 ".data ++ (Nat.repr file_paths.length).data ++
            " 个文件路径到剪贴板".data],
          clipped := [result], ok := true }
      else
        { printed := ["错误: 复制到剪贴板失败 - ".data ++ env.clipErrText],
          clipped := [], ok := false }
    else
      { printed := ["⚠️  当前系统 (".data ++ env.platformName ++
          ") 暂不支持自动复制到剪贴板".data,
          "请手动复制以下内容：".data, sepLine, result, sepLine],
        clipped := [], ok := false }

/-- Facts about the input file that the script observes: `Path(...).exists()`,
`Path(...).is_file()`, and the result of decoding the file's bytes as UTF-8
and as GBK (`none` when the decode raises; the model assumes the bytes are
readable, so the only failure mode of `read_text` is the decode error). -/
structure InFile where
  fileExists : Bool
  isFile : Bool
  utf8Lines : Option (List (List Char))
  gbkLines : Option (List (List Char))
deriving DecidableEq

/-- Outcome of `read_params_file`: the returned content (`none` models
returning `None`), console lines printed, and whether the GBK retry
(lines 66-70) was entered. -/
structure ReadOutcome where
  content : Option (List (List Char))
  printed : List (List Char)
  triedGbk : Bool
deriving DecidableEq

/-- Line 65, the message announcing the GBK retry. -/
def msgUtf8Fail : List Char := "错误: 无法用UTF-8编码读取文件，尝试使用GBK编码...".data

/-- Lines 37-76, `FilePathExtractor.read_params_file` (the Text Loader):
returns `None` (with an error message) when the path does not exist or is not
a regular file; otherwise decodes as UTF-8, retrying with GBK exactly when the
UTF-8 decode raises `UnicodeDecodeError`; returns `None` when both fail.  The
GBK failure message (line 72) carries the exception text, modelled here by its
fixed prefix. -/
def read_params_file (filepath : List Char) (f : InFile) : ReadOutcome :=
  if !f.fileExists then
    { content := none, printed := ["错误: 文件不存在 - ".data ++ filepath],
      triedGbk := false }
  else if !f.isFile then
    { content := none, printed := ["错误: 路径不是文件 - ".data ++ filepath],
      triedGbk := false }
  else
    match f.utf8Lines with
    | some c => { content := some c, printed := [], triedGbk := false }
    | none =>
      match f.gbkLines with
      | some c => { content := some c, printed := [msgUtf8Fail], triedGbk := true }
      | none =>
        { content := none,
          printed := [msgUtf8Fail, "错误: 无法读取文件 - ".data], triedGbk := true }

/-- Outcome of `process`: console lines printed, clipboard payloads, and the
returned Boolean. -/
structure ProcOutcome where
  printed : List (List Char)
  clipped : List (List Char)
  ok : Bool
deriving DecidableEq

/-- The width-3 right-aligned decimal rendering `f"\x7bi:3d\x7d"` of line 176. -/
def pad3 (n : Nat) : List Char :=
  List.replicate (3 - (Nat.repr n).length) ' ' ++ (Nat.repr n).data

/-- Lines 175-176, the enumerated 1-based listing of the extracted paths. -/
def enumLines (paths : List (List Char)) : List (List Char) :=
  ((List.range paths.length).zip paths).map
    (fun ip => "  ".data ++ pad3 (ip.1 + 1) ++ ". ".data ++ ip.2)

/-- Line 170, the notice printed when no valid path was found. -/
def msgNoValid : List Char := "提示: 文件中没有找到有效的文件路径".data

/-- Lines 150-179, `FilePathExtractor.process` (the Orchestrator's pipeline):
read the file (`None` makes `process` return `False`), extract the paths (an
empty result prints a notice and returns `True`), otherwise print the count
and listing and return what `copy_file_paths` returns. -/
def process (env : SysEnv) (filepath : List Char) (f : InFile) : ProcOutcome :=
  let hdr := "正在处理文件: ".data ++ filepath
  let r := read_params_file filepath f
  match r.content with
  | none => { printed := hdr :: r.printed, clipped := [], ok := false }
  | some content =>
    let file_paths := extract_file_paths content
    if file_paths.isEmpty then
      { printed := hdr :: r.printed ++ [msgNoValid], clipped := [], ok := true }
    else
      let c := copy_file_paths env file_paths
      { printed := hdr :: r.printed ++
          ("找到 ".data ++ (Nat.repr file_paths.length).data ++ " 个文件路径:".data) ::
          enumLines file_paths ++ c.printed,
        clipped := c.clipped, ok := c.ok }

/-- Lines 182-201, `main`: exit code `1` when `process` returns `False`,
otherwise fall through to exit code `0`.  The `KeyboardInterrupt` and
generic `except` arms catch events that cannot arise in the pure model
(no step of the modelled pipeline raises). -/
def mainExit (env : SysEnv) (filepath : List Char) (f : InFile) : Nat :=
  if (process env filepath f).ok then 0 else 1

/-- A sample non-Windows environment (`sys.platform = 'linux'`), used in the
concrete scenarios below. -/
def envLinux : SysEnv := { isWin := false, platformName := "linux".data, clipOk := true, clipErrText := [] }

/-- A readable UTF-8 file holding the two lines of the spec's Scenario E. -/
def fileXY : InFile := { fileExists := true, isFile := true, utf8Lines := some ["x.txt".data, "y.txt".data], gbkLines := none }

/-- A readable UTF-8 file holding one blank and one whitespace-only line. -/
def fileBlank : InFile := { fileExists := true, isFile := true, utf8Lines := some ["".data, "   ".data], gbkLines := none }

/-- A readable file whose bytes fail the UTF-8 decode but decode under GBK. -/
def fileGbkOnly : InFile := { fileExists := true, isFile := true, utf8Lines := none, gbkLines := some ["x.txt".data] }

/-- A path that does not exist. -/
def fileMissing : InFile := { fileExists := false, isFile := false, utf8Lines := none, gbkLines := none }

/-- A path that exists but is a directory. -/
def fileDir : InFile := { fileExists := true, isFile := false, utf8Lines := none, gbkLines := none }

/-! ### Order facts about the lexicographic comparison -/

theorem lexLt_irrefl (l : List Char) : lexLt l l = false := by
  induction l with
  | nil => rfl
  | cons a as ih => simp [lexLt, ih]

theorem lexLt_asymm : ∀ {a b : List Char}, lexLt a b = true → lexLt b a = false := by
  intro a
  induction a with
  | nil =>
    intro b h
    cases b with
    | nil => simp [lexLt] at h
    | cons y ys => rfl
  | cons x xs ih =>
    intro b h
    cases b with
    | nil => simp [lexLt] at h
    | cons y ys =>
      simp only [lexLt] at h ⊢
      by_cases hxy : x < y
      · simp [hxy, asymm hxy]
      · by_cases hyx : y < x
        · simp [hxy, hyx] at h
        · have hxy' : x = y := le_antisymm (le_of_not_lt hyx) (le_of_not_lt hxy)
          subst hxy'
          simp only [lt_irrefl, if_false] at h ⊢
          exact ih h

theorem lexLt_trans : ∀ {a b c : List Char},
    lexLt a b = true → lexLt b c = true → lexLt a c = true := by
  intro a
  induction a with
  | nil =>
    intro b c h1 h2
    cases b with
    | nil => simp [lexLt] at h1
    | cons y ys =>
      cases c with
      | nil => simp [lexLt] at h2
      | cons z zs => simp [lexLt]
  | cons x xs ih =>
    intro b c h1 h2
    cases b with
    | nil => simp [lexLt] at h1
    | cons y ys =>
      cases c with
      | nil => simp [lexLt] at h2
      | cons z zs =>
        simp only [lexLt] at h1 h2 ⊢
        by_cases hxy : x < y
        · by_cases hyz : y < z
          · simp [lt_trans hxy hyz]
          · by_cases hzy : z < y
            · simp [hyz, hzy] at h2
            · have hyz' : y = z := le_antisymm (le_of_not_lt hzy) (le_of_not_lt hyz)
              subst hyz'
              simp [hxy]
        · by_cases hyx : y < x
          · simp [hxy, hyx] at h1
          · have hxy' : x = y := le_antisymm (le_of_not_lt hyx) (le_of_not_lt hxy)
            subst hxy'
            simp only [lt_irrefl, if_false] at h1
            by_cases hyz : x < z
            · simp [hyz]
            · by_cases hzy : z < x
              · simp [hyz, hzy] at h2
              · have hyz' : x = z := le_antisymm (le_of_not_lt hzy) (le_of_not_lt hyz)
                subst hyz'
                simp only [lt_irrefl, if_false] at h2 ⊢
                exact ih h1 h2

theorem lexLt_connex : ∀ {a b : List Char}, lexLt a b = false → lexLt b a = true ∨ a = b := by
  intro a
  induction a with
  | nil =>
    intro b h
    cases b with
    | nil => exact Or.inr rfl
    | cons y ys => simp [lexLt] at h
  | cons x xs ih =>
    intro b h
    cases b with
    | nil => exact Or.inl rfl
    | cons y ys =>
      simp only [lexLt] at h ⊢
      by_cases hxy : x < y
      · simp [hxy] at h
      · by_cases hyx : y < x
        · exact Or.inl (by simp [hyx])
        · have hxy' : x = y := le_antisymm (le_of_not_lt hyx) (le_of_not_lt hxy)
          subst hxy'
          simp only [lt_irrefl, if_false] at h ⊢
          rcases ih h with h1 | h1
          · exact Or.inl h1
          · exact Or.inr (by rw [h1])

theorem leKey_trans {a b c : List Char} (h1 : leKey a b) (h2 : leKey b c) : leKey a c := by
  unfold leKey ltKey at h1 h2 ⊢
  by_contra hc
  rw [Bool.not_eq_false] at hc
  rcases lexLt_connex h2 with h3 | h3
  · exact absurd (lexLt_trans h3 hc) (by simp [h1])
  · rw [h3] at hc
    simp [hc] at h1

/-! ### The insertion sort: permutation, sortedness, stability -/

theorem insortK_perm (x : List Char) (l : List (List Char)) :
    (insortK x l).Perm (x :: l) := by
  induction l with
  | nil => exact List.Perm.refl _
  | cons y ys ih =>
    simp only [insortK]
    split
    · exact (ih.cons y).trans (List.Perm.swap x y ys)
    · exact List.Perm.refl _

theorem sortByLower_perm (l : List (List Char)) : (sortByLower l).Perm l := by
  induction l with
  | nil => exact List.Perm.refl _
  | cons x xs ih => exact (insortK_perm x (sortByLower xs)).trans (ih.cons x)

theorem insortK_pairwise {x : List Char} {l : List (List Char)}
    (h : l.Pairwise leKey) : (insortK x l).Pairwise leKey := by
  induction l with
  | nil => simp [insortK, List.pairwise_cons]
  | cons y ys ih =>
    rw [List.pairwise_cons] at h
    obtain ⟨hy, hys⟩ := h
    simp only [insortK]
    cases hlt : ltKey y x with
    | true =>
      rw [if_pos rfl, List.pairwise_cons]
      refine ⟨?_, ih hys⟩
      intro z hz
      rcases List.mem_cons.mp ((insortK_perm x ys).mem_iff.mp hz) with hzx | hzy
      · subst hzx
        exact lexLt_asymm hlt
      · exact hy z hzy
    | false =>
      rw [if_neg Bool.false_ne_true, List.pairwise_cons]
      refine ⟨?_, List.pairwise_cons.mpr ⟨hy, hys⟩⟩
      intro z hz
      rcases List.mem_cons.mp hz with hzy | hzy
      · subst hzy
        exact hlt
      · exact leKey_trans hlt (hy z hzy)

theorem sortByLower_pairwise (l : List (List Char)) :
    (sortByLower l).Pairwise leKey := by
  induction l with
  | nil => exact List.Pairwise.nil
  | cons x xs ih => exact insortK_pairwise ih

theorem insortK_of_le {x : List Char} {l : List (List Char)}
    (h : ∀ y ∈ l, leKey x y) : insortK x l = x :: l := by
  cases l with
  | nil => rfl
  | cons y ys =>
    have := h y (List.mem_cons_self y ys)
    simp only [insortK]
    rw [if_neg]
    simp [leKey] at this
    simp [this]

theorem sortByLower_eq_self {l : List (List Char)}
    (h : l.Pairwise leKey) : sortByLower l = l := by
  induction l with
  | nil => rfl
  | cons x xs ih =>
    rw [List.pairwise_cons] at h
    simp only [sortByLower]
    rw [ih h.2, insortK_of_le h.1]

theorem insortK_filter_key (x : List Char) (l : List (List Char)) (k : List Char) :
    (insortK x l).filter (fun s => decide (lowerKey s = k)) =
    ((x :: l).filter (fun s => decide (lowerKey s = k))) := by
  induction l with
  | nil => rfl
  | cons y ys ih =>
    simp only [insortK]
    cases hlt : ltKey y x with
    | false => rfl
    | true =>
      rw [if_pos rfl]
      by_cases hx : lowerKey x = k
      · have hy : ¬ lowerKey y = k := by
          intro hyk
          rw [ltKey, hyk, ← hx, lexLt_irrefl] at hlt
          exact Bool.false_ne_true hlt
        simp [List.filter_cons, hx, hy, ih]
      · simp [List.filter_cons, hx, ih]

theorem sortByLower_filter_key (l : List (List Char)) (k : List Char) :
    (sortByLower l).filter (fun s => decide (lowerKey s = k)) =
    l.filter (fun s => decide (lowerKey s = k)) := by
  induction l with
  | nil => rfl
  | cons x xs ih =>
    simp only [sortByLower]
    rw [insortK_filter_key]
    simp only [List.filter_cons, ih]

/-! ### Deduplication -/

theorem mem_dedupAux {x : List Char} :
    ∀ {l seen : List (List Char)}, x ∈ dedupAux seen l → x ∈ l := by
  intro l
  induction l with
  | nil => intro seen h; simp [dedupAux] at h
  | cons p ps ih =>
    intro seen h
    simp only [dedupAux] at h
    split at h
    · exact List.mem_cons_of_mem p (ih h)
    · rcases List.mem_cons.mp h with hxp | hxs
      · exact hxp ▸ List.mem_cons_self p ps
      · exact List.mem_cons_of_mem p (ih hxs)

theorem dedupAux_spec :
    ∀ (l seen : List (List Char)),
      (dedupAux seen l).Nodup ∧ ∀ x ∈ dedupAux seen l, x ∉ seen := by
  intro l
  induction l with
  | nil => intro seen; simp [dedupAux]
  | cons p ps ih =>
    intro seen
    simp only [dedupAux]
    split
    · exact ih seen
    · next hp =>
      obtain ⟨hnd, hout⟩ := ih (seen ++ [p])
      refine ⟨List.nodup_cons.mpr ⟨?_, hnd⟩, ?_⟩
      · intro hmem
        exact hout p hmem (List.mem_append.mpr (Or.inr (List.mem_singleton.mpr rfl)))
      · intro x hx
        rcases List.mem_cons.mp hx with hxp | hxs
        · exact hxp ▸ hp
        · intro hxseen
          exact hout x hxs (List.mem_append.mpr (Or.inl hxseen))

theorem dedupAux_eq_self :
    ∀ {l seen : List (List Char)}, l.Nodup → (∀ x ∈ l, x ∉ seen) →
      dedupAux seen l = l := by
  intro l
  induction l with
  | nil => intro seen _ _; rfl
  | cons p ps ih =>
    intro seen hnd hsub
    simp only [dedupAux]
    rw [if_neg (hsub p (List.mem_cons_self p ps))]
    congr 1
    rw [List.nodup_cons] at hnd
    refine ih hnd.2 ?_
    intro x hx hxs
    rcases List.mem_append.mp hxs with h | h
    · exact hsub x (List.mem_cons_of_mem p hx) h
    · exact hnd.1 (List.mem_singleton.mp h ▸ hx)

/-! ### Stripping -/

theorem head_dropWhile_false {p : Char → Bool} :
    ∀ {l : List Char} {a : Char}, (l.dropWhile p).head? = some a → p a = false := by
  intro l
  induction l with
  | nil => intro a h; simp [List.dropWhile] at h
  | cons x xs ih =>
    intro a h
    rw [List.dropWhile_cons] at h
    split at h
    · exact ih h
    · next hpx =>
      rw [List.head?_cons, Option.some.injEq] at h
      subst h
      exact Bool.not_eq_true _ ▸ hpx

theorem dropWhile_eq_self_of_head {p : Char → Bool} {l : List Char}
    (h : ∀ a, l.head? = some a → p a = false) : l.dropWhile p = l := by
  cases l with
  | nil => rfl
  | cons x xs =>
    rw [List.dropWhile_cons, if_neg]
    simp [h x rfl]

theorem head_reverse_dropWhile {p : Char → Bool} :
    ∀ {l : List Char} {a : Char},
      ((l.dropWhile p).reverse).head? = some a → l.reverse.head? = some a := by
  intro l
  induction l with
  | nil => intro a h; exact h
  | cons x xs ih =>
    intro a h
    rw [List.dropWhile_cons] at h
    split at h
    · have h2 := ih h
      rw [List.reverse_cons]
      cases hxs : xs.reverse with
      | nil => rw [hxs] at h2; simp at h2
      | cons b bs =>
        rw [hxs] at h2
        rw [List.head?_cons, Option.some.injEq] at h2
        simpa using h2
    · exact h

theorem stripInvariant {l : List Char}
    (hhead : ∀ a, l.head? = some a → isPySpace a = false)
    (hlast : ∀ a, l.reverse.head? = some a → isPySpace a = false) :
    pyStrip l = l := by
  unfold pyStrip
  rw [dropWhile_eq_self_of_head hhead, dropWhile_eq_self_of_head hlast,
    List.reverse_reverse]

theorem pyStrip_idem (s : List Char) : pyStrip (pyStrip s) = pyStrip s := by
  apply stripInvariant
  · intro a ha
    unfold pyStrip at ha
    have h2 := head_reverse_dropWhile ha
    rw [List.reverse_reverse] at h2
    exact head_dropWhile_false h2
  · intro a ha
    unfold pyStrip at ha
    rw [List.reverse_reverse] at ha
    exact head_dropWhile_false ha

theorem mem_stripFilter {s : List Char} {content : List (List Char)}
    (h : s ∈ stripFilter content) : pyStrip s = s ∧ s ≠ [] := by
  unfold stripFilter at h
  rw [List.mem_filter] at h
  obtain ⟨hmem, hne⟩ := h
  rw [List.mem_map] at hmem
  obtain ⟨line, _, rfl⟩ := hmem
  refine ⟨pyStrip_idem line, ?_⟩
  simpa using hne

/-! ### The normalizer as a whole -/

theorem mem_extract {s : List Char} {content : List (List Char)}
    (h : s ∈ extract_file_paths content) : pyStrip s = s ∧ s ≠ [] := by
  unfold extract_file_paths at h
  split at h
  · simp at h
  · have h2 : s ∈ dedupFirst (stripFilter content) :=
      (sortByLower_perm _).mem_iff.mp h
    exact mem_stripFilter (mem_dedupAux h2)

theorem extract_nodup (content : List (List Char)) :
    (extract_file_paths content).Nodup := by
  unfold extract_file_paths
  split
  · exact List.nodup_nil
  · exact ((sortByLower_perm _).nodup_iff).mpr (dedupAux_spec _ []).1

theorem extract_sorted (content : List (List Char)) :
    (extract_file_paths content).Pairwise leKey := by
  unfold extract_file_paths
  split
  · exact List.Pairwise.nil
  · exact sortByLower_pairwise _

theorem map_self {f : List Char → List Char} {l : List (List Char)}
    (h : ∀ x ∈ l, f x = x) : l.map f = l := by
  induction l with
  | nil => rfl
  | cons x xs ih =>
    rw [List.map_cons, h x (List.mem_cons_self x xs),
      ih (fun y hy => h y (List.mem_cons_of_mem x hy))]

theorem extract_idem (content : List (List Char)) :
    extract_file_paths (extract_file_paths content) = extract_file_paths content := by
  have hmem : ∀ s ∈ extract_file_paths content, pyStrip s = s ∧ s ≠ [] :=
    fun s hs => mem_extract hs
  have hnd : (extract_file_paths content).Nodup := extract_nodup content
  have hsort := extract_sorted content
  cases hout : extract_file_paths content with
  | nil => simp [extract_file_paths]
  | cons a rest =>
    rw [hout] at hmem hnd hsort
    unfold extract_file_paths
    rw [if_neg (by simp)]
    have h1 : stripFilter (a :: rest) = a :: rest := by
      unfold stripFilter
      rw [map_self (fun x hx => (hmem x hx).1)]
      exact List.filter_eq_self.mpr (fun x hx => by simpa using (hmem x hx).2)
    rw [h1]
    unfold dedupFirst
    rw [dedupAux_eq_self hnd (by simp), sortByLower_eq_self hsort]

theorem dedupAux_length_le :
    ∀ (l seen : List (List Char)), (dedupAux seen l).length ≤ l.length := by
  intro l
  induction l with
  | nil => intro seen; exact Nat.le_refl 0
  | cons p ps ih =>
    intro seen
    simp only [dedupAux]
    split
    · exact Nat.le_succ_of_le (ih seen)
    · simpa using Nat.succ_le_succ (ih (seen ++ [p]))

theorem extract_length_le (content : List (List Char)) :
    (extract_file_paths content).length ≤ content.length := by
  unfold extract_file_paths
  split
  · exact Nat.zero_le _
  · rw [(sortByLower_perm _).length_eq]
    refine Nat.le_trans (dedupAux_length_le _ []) ?_
    unfold stripFilter
    refine Nat.le_trans (List.length_filter_le _ _) ?_
    simp

/-! ### The claims -/

/-- C3: on the input lines `["b.txt", "", "A.txt", "a.txt", "  b.txt  "]` the
normalizer `extract_file_paths` returns exactly `["A.txt", "a.txt", "b.txt"]`:
the blank line is dropped, the padded duplicate of `b.txt` is trimmed and
collapsed with the existing `b.txt`, the case-insensitive sort places both
`a.txt` variants before `b.txt`, and the original letter case is preserved. -/
theorem claim_C3 :
    extract_file_paths
      ["b.txt".data, "".data, "A.txt".data, "a.txt".data, "  b.txt  ".data] =
      ["A.txt".data, "a.txt".data, "b.txt".data] := by decide

/-- C4: the normalizer `extract_file_paths` is idempotent — applying it to its
own output yields the same result for every input line sequence. -/
theorem claim_C4 (L : List (List Char)) :
    extract_file_paths (extract_file_paths L) = extract_file_paths L :=
  extract_idem L

/-- C5: for every input line sequence, the output of `extract_file_paths` is
sorted ascending under the case-insensitive comparison (`leKey`, which folds
both operands with `lowerKey` before comparing), and the sort is stable:
for every case-folded key, the entries carrying that key appear in the same
relative order as in the deduplicated pre-sort sequence. -/
theorem claim_C5 (L : List (List Char)) :
    (extract_file_paths L).Pairwise leKey ∧
    ∀ k, (extract_file_paths L).filter (fun s => decide (lowerKey s = k)) =
      (dedupFirst (stripFilter L)).filter (fun s => decide (lowerKey s = k)) := by
  refine ⟨extract_sorted L, ?_⟩
  intro k
  unfold extract_file_paths
  split
  · next hL =>
    rw [List.isEmpty_iff] at hL
    subst hL
    rfl
  · exact sortByLower_filter_key _ k

/-- C6: for every input line sequence, the output of `extract_file_paths`
contains no two entries that are exactly equal as strings. -/
theorem claim_C6 (L : List (List Char)) : (extract_file_paths L).Nodup :=
  extract_nodup L

/-- C7: no entry of the normalizer's output is empty, and every entry is
already trimmed (stripping it again changes nothing), so blank and
whitespace-only lines never appear in the output. -/
theorem claim_C7 (L : List (List Char)) (s : List Char)
    (h : s ∈ extract_file_paths L) : pyStrip s = s ∧ s ≠ [] :=
  mem_extract h

/-- Witness for C7 at the concrete input `["  a.txt  "]`, whose normalized
output contains `"a.txt"`. -/
theorem claim_C7_witness :
    ("a.txt".data ∈ extract_file_paths ["  a.txt  ".data]) ∧
    (pyStrip "a.txt".data = "a.txt".data ∧ "a.txt".data ≠ []) :=
  ⟨by decide, claim_C7 ["  a.txt  ".data] "a.txt".data (by decide)⟩

/-- C10: the normalizer `extract_file_paths` is total in the model — it
returns a list for every input, of length at most the input's, and an empty
input list returns `[]` immediately (line 88).  In the embedding the `try`
body is a pure computation that cannot raise, so the `except` fallback to
`[]` (lines 105-107) is unreachable. -/
theorem claim_C10 :
    (∀ L : List (List Char), (extract_file_paths L).length ≤ L.length) ∧
    extract_file_paths [] = [] :=
  ⟨extract_length_le, rfl⟩

/-- C2: given an empty path list the clipboard writer performs no clipboard
write and only prints the `NothingToCopy` notice (line 120), and when the
normalized list is empty the orchestrator prints its notice, `process`
returns `True`, and the process exits with code 0 (lines 169-171). -/
theorem claim_C2 (env : SysEnv) (filepath : List Char) (f : InFile)
    (content : List (List Char))
    (hread : (read_params_file filepath f).content = some content)
    (hempty : extract_file_paths content = []) :
    (copy_file_paths env []).clipped = [] ∧
    (copy_file_paths env []).printed = [msgNothing] ∧
    msgNoValid ∈ (process env filepath f).printed ∧
    (process env filepath f).ok = true ∧
    mainExit env filepath f = 0 := by
  refine ⟨rfl, rfl, ?_, ?_, ?_⟩
  · simp [process, hread, hempty]
  · simp [process, hread, hempty]
  · simp [mainExit, process, hread, hempty]


/-- Witness for C2: a file of one blank and one whitespace-only line
normalizes to the empty list, and the pipeline exits 0. -/
theorem claim_C2_witness :
    ((read_params_file "in.txt".data fileBlank).content =
        some ["".data, "   ".data] ∧
      extract_file_paths ["".data, "   ".data] = []) ∧
    ((copy_file_paths envLinux []).clipped = [] ∧
      (copy_file_paths envLinux []).printed = [msgNothing] ∧
      msgNoValid ∈ (process envLinux "in.txt".data fileBlank).printed ∧
      (process envLinux "in.txt".data fileBlank).ok = true ∧
      mainExit envLinux "in.txt".data fileBlank = 0) :=
  ⟨⟨by decide, by decide⟩,
    claim_C2 envLinux "in.txt".data fileBlank ["".data, "   ".data]
      (by decide) (by decide)⟩

/-- C8: with an existing regular file, the loader tries UTF-8 first and
enters the GBK retry exactly when the UTF-8 decode fails; a UTF-8-undecodable
file that decodes under GBK is loaded successfully; when both decodes fail
the loader returns `none` (Python `None`) instead of raising. -/
theorem claim_C8 (filepath : List Char) (f : InFile)
    (hex : f.fileExists = true) (hf : f.isFile = true) :
    ((read_params_file filepath f).triedGbk = true ↔ f.utf8Lines = none) ∧
    (∀ c, f.utf8Lines = some c → (read_params_file filepath f).content = some c) ∧
    (∀ c, f.utf8Lines = none → f.gbkLines = some c →
      (read_params_file filepath f).content = some c) ∧
    (f.utf8Lines = none → f.gbkLines = none →
      (read_params_file filepath f).content = none) := by
  unfold read_params_file
  rw [hex, hf]
  cases hu : f.utf8Lines with
  | some c => simp
  | none =>
    cases hg : f.gbkLines with
    | some c => simp
    | none => simp

/-- Witness for C8: a file whose bytes fail the UTF-8 decode but decode under
GBK is loaded via the retry. -/
theorem claim_C8_witness :
    (fileGbkOnly.fileExists = true ∧ fileGbkOnly.isFile = true) ∧
    (((read_params_file "in.txt".data fileGbkOnly).triedGbk = true ↔
        fileGbkOnly.utf8Lines = none) ∧
      (∀ c, fileGbkOnly.utf8Lines = some c →
        (read_params_file "in.txt".data fileGbkOnly).content = some c) ∧
      (∀ c, fileGbkOnly.utf8Lines = none → fileGbkOnly.gbkLines = some c →
        (read_params_file "in.txt".data fileGbkOnly).content = some c) ∧
      (fileGbkOnly.utf8Lines = none → fileGbkOnly.gbkLines = none →
        (read_params_file "in.txt".data fileGbkOnly).content = none)) :=
  ⟨⟨rfl, rfl⟩, claim_C8 "in.txt".data fileGbkOnly rfl rfl⟩

/-- C9: the loader fails (returns `none`) when the path does not exist and
when it exists but is not a regular file; in both cases the error is reported
on the console and the process exits with the non-zero code 1. -/
theorem claim_C9 (env : SysEnv) (filepath : List Char) (f : InFile) :
    (f.fileExists = false →
      (read_params_file filepath f).content = none ∧
      ("错误: 文件不存在 - ".data ++ filepath) ∈ (process env filepath f).printed ∧
      mainExit env filepath f = 1) ∧
    (f.fileExists = true → f.isFile = false →
      (read_params_file filepath f).content = none ∧
      ("错误: 路径不是文件 - ".data ++ filepath) ∈ (process env filepath f).printed ∧
      mainExit env filepath f = 1) := by
  constructor
  · intro hex
    have hr : read_params_file filepath f =
        { content := none, printed := ["错误: 文件不存在 - ".data ++ filepath],
          triedGbk := false } := by
      unfold read_params_file
      rw [hex]
      rfl
    exact ⟨by rw [hr], by simp [process, hr], by simp [mainExit, process, hr]⟩
  · intro hex hf
    have hr : read_params_file filepath f =
        { content := none, printed := ["错误: 路径不是文件 - ".data ++ filepath],
          triedGbk := false } := by
      unfold read_params_file
      rw [hex, hf]
      rfl
    exact ⟨by rw [hr], by simp [process, hr], by simp [mainExit, process, hr]⟩

/-- Witness for C9 at a non-existent path and at a directory path. -/
theorem claim_C9_witness :
    (fileMissing.fileExists = false ∧
      (read_params_file "gone.txt".data fileMissing).content = none ∧
      ("错误: 文件不存在 - ".data ++ "gone.txt".data) ∈
        (process envLinux "gone.txt".data fileMissing).printed ∧
      mainExit envLinux "gone.txt".data fileMissing = 1) ∧
    (fileDir.fileExists = true ∧ fileDir.isFile = false ∧
      (read_params_file "somedir".data fileDir).content = none ∧
      ("错误: 路径不是文件 - ".data ++ "somedir".data) ∈
        (process envLinux "somedir".data fileDir).printed ∧
      mainExit envLinux "somedir".data fileDir = 1) :=
  ⟨⟨rfl, (claim_C9 envLinux "gone.txt".data fileMissing).1 rfl⟩,
    ⟨rfl, rfl, (claim_C9 envLinux "somedir".data fileDir).2 rfl rfl⟩⟩

/-- C1 as stated is false: on a platform without a clipboard mechanism and
the successfully extracted non-empty list `["x.txt", "y.txt"]`, the fallback
(separator-bracketed newline-joined text) is printed, yet the process exits
with code 1, not 0 — `copy_file_paths` returns `False` (line 144), `process`
passes that on (line 179), and `main` calls `sys.exit(1)` (line 194). -/
theorem claim_C1_counterexample :
    extract_file_paths ["x.txt".data, "y.txt".data] =
      ["x.txt".data, "y.txt".data] ∧
    sepLine ∈ (process envLinux "in.txt".data fileXY).printed ∧
    joinLines ["x.txt".data, "y.txt".data] ∈
      (process envLinux "in.txt".data fileXY).printed ∧
    mainExit envLinux "in.txt".data fileXY = 1 := by
  decide

/-- C1 amended: on a platform lacking an automatic clipboard mechanism,
invoking the clipboard writer with a non-empty path list raises no error and
prints the newline-joined text bracketed by separator lines as a manual
fallback, but the writer returns `False`, so the orchestrator treats the run
as a failure and the process terminates with exit code 1 (not 0). -/
theorem claim_C1 (env : SysEnv) (filepath : List Char) (f : InFile)
    (content : List (List Char))
    (hwin : env.isWin = false)
    (hread : (read_params_file filepath f).content = some content)
    (hne : extract_file_paths content ≠ []) :
    (copy_file_paths env (extract_file_paths content)).printed =
      ["⚠️  当前系统 (".data ++ env.platformName ++
         ") 暂不支持自动复制到剪贴板".data,
        "请手动复制以下内容：".data, sepLine,
        joinLines (extract_file_paths content), sepLine] ∧
    (copy_file_paths env (extract_file_paths content)).clipped = [] ∧
    (copy_file_paths env (extract_file_paths content)).ok = false ∧
    sepLine ∈ (process env filepath f).printed ∧
    joinLines (extract_file_paths content) ∈ (process env filepath f).printed ∧
    mainExit env filepath f = 1 := by
  have hie : (extract_file_paths content).isEmpty = false :=
    List.isEmpty_eq_false.mpr hne
  have hcopy : copy_file_paths env (extract_file_paths content) =
      { printed := ["⚠️  当前系统 (".data ++ env.platformName ++
            ") 暂不支持自动复制到剪贴板".data,
          "请手动复制以下内容：".data, sepLine,
          joinLines (extract_file_paths content), sepLine],
        clipped := [], ok := false } := by
    unfold copy_file_paths
    rw [hie, hwin]
    rfl
  refine ⟨by rw [hcopy], by rw [hcopy], by rw [hcopy], ?_, ?_, ?_⟩
  · simp [process, hread, hie, hcopy]
  · simp [process, hread, hie, hcopy]
  · simp [mainExit, process, hread, hie, hcopy]

/-- Witness for the amended C1 at the concrete scenario of the spec's
Scenario E. -/
theorem claim_C1_witness :
    (envLinux.isWin = false ∧
      (read_params_file "in.txt".data fileXY).content =
        some ["x.txt".data, "y.txt".data] ∧
      extract_file_paths ["x.txt".data, "y.txt".data] ≠ []) ∧
    ((copy_file_paths envLinux
        (extract_file_paths ["x.txt".data, "y.txt".data])).printed =
      ["⚠️  当前系统 (".data ++ envLinux.platformName ++
         ") 暂不支持自动复制到剪贴板".data,
        "请手动复制以下内容：".data, sepLine,
        joinLines (extract_file_paths ["x.txt".data, "y.txt".data]), sepLine] ∧
      (copy_file_paths envLinux
        (extract_file_paths ["x.txt".data, "y.txt".data])).clipped = [] ∧
      (copy_file_paths envLinux
        (extract_file_paths ["x.txt".data, "y.txt".data])).ok = false ∧
      sepLine ∈ (process envLinux "in.txt".data fileXY).printed ∧
      joinLines (extract_file_paths ["x.txt".data, "y.txt".data]) ∈
        (process envLinux "in.txt".data fileXY).printed ∧
      mainExit envLinux "in.txt".data fileXY = 1) :=
  ⟨⟨rfl, by decide, by decide⟩,
    claim_C1 envLinux "in.txt".data fileXY ["x.txt".data, "y.txt".data]
      rfl (by decide) (by decide)⟩

end CopyFilePaths
